import Mathlib

/-!
Verification development for the fast-alchemy-models record lifecycle engine.

We give a shallow embedding of the library's record engine:
  - field values are modelled by an inductive `Value` (SQL NULL / Python None is
    `Value.vnull`);
  - a Python keyword-argument dict is an insertion-ordered association list
    `List (String × Value)` with distinct keys (Python dicts preserve insertion
    order and `d[k] = v` replaces in place);
  - an entity instance is its in-memory identity (`iid`, standing for Python
    object identity) plus its attribute dict;
  - the storage collaborator is a list of persisted entity instances; committing
    a fresh instance appends a row (the storage assigns the primary key when the
    `id` attribute is null), committing an already-persisted instance replaces
    the row with the same in-memory identity;
  - fallible storage commits are modelled by an explicit outcome parameter and
    an event-trace semantics for the operations whose claims are about
    commit/rollback ordering.

Each definition is translated from the corresponding Python function of
`fast_alchemy_models` (file and symbol named in its doc comment).
-/

set_option autoImplicit false

namespace FastAlchemy

/-- A field value.  `vnull` is Python `None` / SQL `NULL`.  `vhist` carries a
`TypeHistorical` enum member, since `create_historical_record` stores the enum
member itself in `history_type`. -/
inductive Value where
  | vnull
  | vint (n : Int)
  | vstr (s : String)
  | vtime (t : Nat)
  | vhist (h : Nat)
  deriving DecidableEq, Repr

/-- History event types.  Modelled from the spec: the enum
`utils.enums.TypeHistorical` (imported by `models.py` and `simple_history.py`)
is not under `src/`; per the spec its members are ADD, UPDATE and DEL. -/
inductive TypeHistorical where
  | ADD
  | UPDATE
  | DEL
  deriving DecidableEq, Repr

/-- Python dict read `d.get(k)` combined with the SQL-side convention that the
missing/`None` case is the null value: returns `vnull` when the key is absent
(`kwargs.get("id")` returns `None`, and a filter `where(id=None)` compares
against NULL). -/
def dict_get (d : List (String × Value)) (k : String) : Value :=
  (d.lookup k).getD .vnull

/-- Python dict write `d[k] = v`: replaces the value in place when the key is
present (keeping its position), appends otherwise. -/
def dict_set : List (String × Value) → String → Value → List (String × Value)
  | [], k, v => [(k, v)]
  | (k₁, v₁) :: rest, k, v =>
      if k₁ = k then (k, v) :: rest else (k₁, v₁) :: dict_set rest k v

/-- An entity instance: Python object identity plus the attribute dict. -/
structure Entity where
  iid : Nat
  attrs : List (String × Value)
  deriving DecidableEq, Repr

/-- `setattr(self, name, v)`. -/
def eset (e : Entity) (name : String) (v : Value) : Entity :=
  { e with attrs := dict_set e.attrs name v }

/-- Attribute read; a column never assigned holds its default `None`
(`models.py` declares the lifecycle columns with `default=None`). -/
def eget (e : Entity) (name : String) : Value :=
  dict_get e.attrs name

/-- `fill` from `active_record.py` (`CustomActiveRecordMixin.fill`): iterate
the kwargs in order; a settable name is assigned with `setattr`, a non-settable
name raises `KeyError` naming it.  Because Python mutates `self` in place, the
entity state reached before the failing name is part of the result: the
returned pair is the (possibly partially updated) entity together with the
offending name when a `KeyError` was raised. -/
def fill (settable : List String) : Entity → List (String × Value) → Entity × Option String
  | e, [] => (e, none)
  | e, (name, v) :: rest =>
      if name ∈ settable then fill settable (eset e name v) rest
      else (e, some name)

/-- Errors surfaced by the engine, one constructor per Python exception class
that the claims distinguish. -/
inductive RecordError where
  /-- `KeyError` raised by `fill` for a non-settable attribute name. -/
  | unknownAttribute (name : String)
  /-- `InvalidRequestError` raised by `_get_primary_key_name` when
  `primary_keys is None`. -/
  | invalidRequestNoPK
  /-- `InvalidRequestError` raised by `_get_primary_key_name` for a composite
  primary key. -/
  | invalidRequestComposite
  /-- `IndexError` from indexing an empty column collection. -/
  | indexOutOfRange
  /-- An error raised by the storage collaborator's `commit`, identified by an
  opaque code so that re-raising unchanged is observable. -/
  | storage (code : Nat)
  deriving DecidableEq, Repr

/-- A column, as far as primary-key resolution needs it. -/
structure ColumnM where
  name : String
  deriving DecidableEq, Repr

/-- `_get_primary_key_name` from `async_record_mixin.py`, translated clause by
clause.  The argument is `cls.__table__.primary_key.columns`; the Python code
first tests `primary_keys is None` (the `Option.none` case), then
`len(primary_keys) > 1`, and finally evaluates `primary_keys[0].name`, which on
an empty collection raises `IndexError`. -/
def get_primary_key_name (primary_keys : Option (List ColumnM)) :
    Except RecordError String :=
  match primary_keys with
  | none => .error .invalidRequestNoPK
  | some pks =>
      if pks.length > 1 then .error .invalidRequestComposite
      else
        match pks.head? with
        | some c => .ok c.name
        | none => .error .indexOutOfRange

/-- Primary-key resolution for an actual entity type.  SQLAlchemy's
`Table.primary_key.columns` is a `ColumnCollection` object — a collection that
is empty when the table has no primary key, but never `None` — so resolution
always reaches `get_primary_key_name` with `some` column list. -/
def resolve_primary_key (pkColumns : List ColumnM) : Except RecordError String :=
  get_primary_key_name (some pkColumns)

/-- The entity-building list comprehension inside `bulk_create_async`
(`async_record_mixin.py`): `[cls().fill(**obj) for obj in objs_to_add]`.
Each item is filled onto a fresh instance; the first `KeyError` aborts the
comprehension before any of the chunk is staged. -/
def fill_batch (settable : List String) : List (List (String × Value)) →
    Except RecordError (List Entity)
  | [] => .ok []
  | obj :: rest =>
      match fill settable ⟨0, []⟩ obj with
      | (_, some name) => .error (.unknownAttribute name)
      | (e, none) =>
          match fill_batch settable rest with
          | .error err => .error err
          | .ok es => .ok (e :: es)

/-- The chunk loop of `bulk_create_async` (`async_record_mixin.py`): one
iteration per `i in range(0, len(objs), batch_size)`, slicing
`objs[i : i + batch_size]`, building the entities, staging them with
`add_all` and committing the chunk.  An exception aborts the loop, rolls the
session back and is re-raised; the chunks committed before it remain
committed.  Structural recursion uses a fuel argument bounded below by the
number of loop iterations (Python's `range` step must be positive, so a call
with `batch_size ≥ 1` and fuel `objs.length` never exhausts the fuel); the
result is the list of committed chunks together with the raised error, if
any. -/
def bulk_go (settable : List String) (batch : Nat) :
    Nat → List (List (String × Value)) → List (List Entity) →
    List (List Entity) × Option RecordError
  | _, [], committed => (committed, none)
  | 0, _ :: _, committed => (committed, none)
  | fuel + 1, obj :: rest, committed =>
      match fill_batch settable ((obj :: rest).take batch) with
      | .error err => (committed, some err)
      | .ok entities =>
          bulk_go settable batch fuel ((obj :: rest).drop batch)
            (committed ++ [entities])

/-- `bulk_create_async` from `async_record_mixin.py`, with the per-chunk
commit assumed to succeed (the claims about it concern invalid objects, not
storage failures): returns the committed chunks and the error raised, if
any. -/
def bulk_create_async (settable : List String)
    (objs : List (List (String × Value))) (batch : Nat) :
    List (List Entity) × Option RecordError :=
  bulk_go settable batch objs.length objs []

/-- The storage collaborator plus the session's allocation state: the
persisted live rows, the persisted historical rows (the derived historical
type's own table), a counter supplying fresh Python object identities for
`cls()` calls, and a counter supplying storage-assigned primary keys. -/
structure Store where
  rows : List Entity
  hist : List (List (String × Value))
  nextIid : Nat
  nextPk : Nat
  deriving Repr

/-- `cls()`: allocate a fresh unpersisted instance. -/
def newEntity (s : Store) : Entity × Store :=
  (⟨s.nextIid, []⟩, { s with nextIid := s.nextIid + 1 })

/-- `session.add(self)` followed by a successful `commit` (`save` in
`active_record.py`): a not-yet-persisted instance is inserted — the storage
assigns the primary key when the `id` attribute is null — and an instance
already persisted (same object identity) has its row updated in place. -/
def saveRow (s : Store) (e : Entity) : Store × Entity :=
  if s.rows.any (fun r => r.iid = e.iid) then
    ({ s with rows := s.rows.map (fun r => if r.iid = e.iid then e else r) }, e)
  else
    let e := if eget e "id" = .vnull then eset e "id" (.vint s.nextPk) else e
    ({ s with rows := s.rows ++ [e], nextPk := s.nextPk + 1 }, e)

/-- The ambient class-level context of a `FastAlchemyModel` subclass: its
settable attribute names, the current actor (`cls.user`, the external
`UserContext` read accessor: the current actor's id, if one is set), and
whether `__historical__` is truthy. -/
structure Ctx where
  settable : List String
  user : Option Int
  historical : Bool

/-- `create_historical_record` from `simple_history.py`, at the level of the
row it appends: stamps `history_type` with the enum member `action`, stamps
`history_user_id` when an actor is set, and persists the result on the
derived historical type (whose column set contains every live column plus the
history columns, so its `fill` succeeds). -/
def create_historical_record (user : Option Int) (action : TypeHistorical)
    (kwargs : List (String × Value)) : List (String × Value) :=
  let kwargs := dict_set kwargs "history_type" (.vhist action.toCtorIdx)
  match user with
  | some u => dict_set kwargs "history_user_id" (.vint u)
  | none => kwargs

/-- Append a historical snapshot row when `__historical__` is truthy. -/
def histAppend (ctx : Ctx) (action : TypeHistorical)
    (attrs : List (String × Value)) (s : Store) : Store :=
  if ctx.historical then
    { s with hist := s.hist ++ [create_historical_record ctx.user action attrs] }
  else s

/-- The actor stamping shared by `create`, `update` and `delete` in
`models.py`: `if cls.user: kwargs["updated_by_id"] = cls.user.id`. -/
def with_user (user : Option Int) (kwargs : List (String × Value)) :
    List (String × Value) :=
  match user with
  | some u => dict_set kwargs "updated_by_id" (.vint u)
  | none => kwargs

/-- `FastAlchemyModel.create` (`models.py`): stamp `updated_by_id` from the
current actor, run `cls().fill(**kwargs).save()`, then — when
`__historical__` is truthy — append one ADD snapshot built from
`item.to_dict()` (modelled as the item's attribute dict, which is what
`SerializeMixin.to_dict` dumps). -/
def FM_create (ctx : Ctx) (s : Store) (kwargs : List (String × Value)) :
    Store × Except RecordError Entity :=
  let kwargs := with_user ctx.user kwargs
  let (e₀, s₁) := newEntity s
  match fill ctx.settable e₀ kwargs with
  | (_, some name) => (s₁, .error (.unknownAttribute name))
  | (e₁, none) =>
      let (s₂, item) := saveRow s₁ e₁
      (histAppend ctx .ADD item.attrs s₂, .ok item)

/-- `FastAlchemyModel.update` (`models.py`): stamp
`kwargs["updated_at"] = now`, stamp the actor, run the base
`fill(**kwargs).save()` on the existing instance, then append one UPDATE
snapshot when `__historical__` is truthy. -/
def FM_update (ctx : Ctx) (now : Nat) (s : Store) (self : Entity)
    (kwargs : List (String × Value)) : Store × Except RecordError Entity :=
  let kwargs := dict_set kwargs "updated_at" (.vtime now)
  let kwargs := with_user ctx.user kwargs
  match fill ctx.settable self kwargs with
  | (_, some name) => (s, .error (.unknownAttribute name))
  | (e₁, none) =>
      let (s₂, item) := saveRow s e₁
      (histAppend ctx .UPDATE item.attrs s₂, .ok item)

/-- `FastAlchemyModel.delete` (`models.py`): builds
`kwargs = dict(updated_at=now, deleted=now)`, stamps the actor, and performs
`super().update(**kwargs)` — the base `CustomActiveRecordMixin.update`
(`fill` + `save`), bypassing `FastAlchemyModel.update`'s own stamping — then
appends one DEL snapshot from `self.to_dict()` when `__historical__` is
truthy (Python mutates `self` in place, so `self.to_dict()` after the update
equals the updated item's attribute dict). -/
def FM_delete (ctx : Ctx) (now : Nat) (s : Store) (self : Entity) :
    Store × Except RecordError Entity :=
  let kwargs := [("updated_at", Value.vtime now), ("deleted", Value.vtime now)]
  let kwargs := with_user ctx.user kwargs
  match fill ctx.settable self kwargs with
  | (_, some name) => (s, .error (.unknownAttribute name))
  | (e₁, none) =>
      let (s₂, item) := saveRow s e₁
      (histAppend ctx .DEL item.attrs s₂, .ok item)

/-- `FastAlchemyModel.all` (`models.py`): `cls.where(deleted=None).all()` —
the rows whose `deleted` column is NULL. -/
def FM_all (s : Store) : List Entity :=
  s.rows.filter (fun r => eget r "deleted" == Value.vnull)

/-- The lookup shared by `upsert` and `get_or_create` in `models.py`:
`cls().where(id=kwargs.get("id"), deleted=None).first()`. -/
def lookup_live (s : Store) (idv : Value) : Option Entity :=
  (s.rows.filter (fun r => eget r "id" == idv && eget r "deleted" == Value.vnull)).head?

/-- `FastAlchemyModel.upsert` (`models.py`): look up a live row by the
literal `"id"` key of the kwargs; update it when found, create otherwise. -/
def FM_upsert (ctx : Ctx) (now : Nat) (s : Store)
    (kwargs : List (String × Value)) : Store × Except RecordError Entity :=
  match lookup_live s (dict_get kwargs "id") with
  | some inst => FM_update ctx now s inst kwargs
  | none => FM_create ctx s kwargs

/-- `FastAlchemyModel.get_or_create` (`models.py`): look up a live row by the
literal `"id"` key of the kwargs; return it untouched when found, create
otherwise. -/
def FM_get_or_create (ctx : Ctx) (s : Store)
    (kwargs : List (String × Value)) : Store × Except RecordError Entity :=
  match lookup_live s (dict_get kwargs "id") with
  | some inst => (s, .ok inst)
  | none => FM_create ctx s kwargs

/-- `find` (the `sqlalchemy_mixins` active-record collaborator used by
`active_record.py`): `cls.query.get(id_)` — lookup by primary-key value. -/
def CAR_find (s : Store) (idv : Value) : Option Entity :=
  s.rows.find? (fun r => eget r "id" == idv)

/-- `CustomActiveRecordMixin.create` (`active_record.py`):
`cls().fill(**kwargs).save()`. -/
def CAR_create (settable : List String) (s : Store)
    (kwargs : List (String × Value)) : Store × Except RecordError Entity :=
  let (e₀, s₁) := newEntity s
  match fill settable e₀ kwargs with
  | (_, some name) => (s₁, .error (.unknownAttribute name))
  | (e₁, none) =>
      let (s₂, item) := saveRow s₁ e₁
      (s₂, .ok item)

/-- `CustomActiveRecordMixin.update` (`active_record.py`):
`self.fill(**kwargs).save()`. -/
def CAR_update (settable : List String) (s : Store) (self : Entity)
    (kwargs : List (String × Value)) : Store × Except RecordError Entity :=
  match fill settable self kwargs with
  | (_, some name) => (s, .error (.unknownAttribute name))
  | (e₁, none) =>
      let (s₂, item) := saveRow s e₁
      (s₂, .ok item)

/-- `CustomActiveRecordMixin.get_or_create` (`active_record.py`):
`instance = cls().find(kwargs.get("id"))`; return it when found, create
otherwise. -/
def CAR_get_or_create (settable : List String) (s : Store)
    (kwargs : List (String × Value)) : Store × Except RecordError Entity :=
  match CAR_find s (dict_get kwargs "id") with
  | some inst => (s, .ok inst)
  | none => CAR_create settable s kwargs

/-- `CustomActiveRecordMixin.upsert` (`active_record.py`):
`instance = cls().find(kwargs.get("id"))`; `instance.update(**kwargs)` when
found, create otherwise. -/
def CAR_upsert (settable : List String) (s : Store)
    (kwargs : List (String × Value)) : Store × Except RecordError Entity :=
  match CAR_find s (dict_get kwargs "id") with
  | some inst => CAR_update settable s inst kwargs
  | none => CAR_create settable s kwargs

/-- The store's basic well-formedness: every persisted row has an object
identity below the allocation counter (so a fresh `cls()` instance is not yet
persisted) and a non-null primary key (the storage assigns one on insert). -/
abbrev StoreInv (s : Store) : Prop :=
  ∀ r ∈ s.rows, r.iid < s.nextIid ∧ eget r "id" ≠ .vnull

/-- Session events, for the claims about commit/rollback/snapshot ordering. -/
inductive Ev where
  /-- `session.add(self)` (or `add_all` staging a chunk). -/
  | add
  /-- `session.delete(self)`. -/
  | del
  /-- a successful `commit`. -/
  | commitOk
  /-- a `commit` call that raised. -/
  | commitFail
  /-- `rollback`. -/
  | rollback
  /-- `flush`. -/
  | flush
  /-- staging the historical snapshot entity (with its `history_type`). -/
  | histAdd (t : TypeHistorical)
  deriving DecidableEq, Repr

/-- Events of `try: commit  except: rollback; raise`, given the commit's
outcome (`none` = success, `some code` = the storage error raised). -/
def commitEvs : Option Nat → List Ev
  | none => [.commitOk]
  | some _ => [.commitFail, .rollback]

/-- Result of `try: commit  except: rollback; raise`: the original storage
error is re-raised unchanged. -/
def commitRes : Option Nat → Except RecordError Unit
  | none => .ok ()
  | some code => .error (.storage code)

/-- `save` (`active_record.py`): `session.add(self)` then `_flush_or_fail`
(`try commit / except rollback, raise`). -/
def save_tr (co : Option Nat) : List Ev × Except RecordError Unit :=
  (Ev.add :: commitEvs co, commitRes co)

/-- `save_async` (`async_record_mixin.py`): `session.add`, `await commit`,
`except: await rollback; raise` — the same event shape as `save`. -/
def save_async_tr (co : Option Nat) : List Ev × Except RecordError Unit :=
  (Ev.add :: commitEvs co, commitRes co)

/-- `create` (`active_record.py`): `cls().fill(**kwargs).save()`; a fill
failure raises before any storage interaction. -/
def create_tr (settable : List String) (kwargs : List (String × Value))
    (co : Option Nat) : List Ev × Except RecordError Unit :=
  match fill settable ⟨0, []⟩ kwargs with
  | (_, some name) => ([], .error (.unknownAttribute name))
  | (_, none) => save_tr co

/-- `create_async` (`async_record_mixin.py`): `cls().fill(**kwargs)` then
`save_async`. -/
def create_async_tr (settable : List String) (kwargs : List (String × Value))
    (co : Option Nat) : List Ev × Except RecordError Unit :=
  match fill settable ⟨0, []⟩ kwargs with
  | (_, some name) => ([], .error (.unknownAttribute name))
  | (_, none) => save_async_tr co

/-- `update` (`active_record.py`): `self.fill(**kwargs).save()`. -/
def update_tr (settable : List String) (self : Entity)
    (kwargs : List (String × Value)) (co : Option Nat) :
    List Ev × Except RecordError Unit :=
  match fill settable self kwargs with
  | (_, some name) => ([], .error (.unknownAttribute name))
  | (_, none) => save_tr co

/-- `update_async` (`async_record_mixin.py`): `self.fill(**kwargs)` then
`save_async`. -/
def update_async_tr (settable : List String) (self : Entity)
    (kwargs : List (String × Value)) (co : Option Nat) :
    List Ev × Except RecordError Unit :=
  match fill settable self kwargs with
  | (_, some name) => ([], .error (.unknownAttribute name))
  | (_, none) => save_async_tr co

/-- `delete` (`active_record.py`): `session.delete(self)` then
`_flush_or_fail`. -/
def delete_tr (co : Option Nat) : List Ev × Except RecordError Unit :=
  (Ev.del :: commitEvs co, commitRes co)

/-- `delete_async` (`async_record_mixin.py`): `session.sync_session.delete`,
`await commit`, `except: rollback; raise`, `finally: await flush` — the
flush runs on both paths; it is modelled as non-failing (the storage
contract specifies no failure mode for it). -/
def delete_async_tr (co : Option Nat) : List Ev × Except RecordError Unit :=
  (Ev.del :: commitEvs co ++ [Ev.flush], commitRes co)

/-- Number of commits issued in a trace (successful or failing attempts). -/
def commitCount (tr : List Ev) : Nat :=
  tr.countP (fun e => e == Ev.commitOk || e == Ev.commitFail)

/-- `create_historical_record` (`simple_history.py`) at the trace level:
`cls().fill(**kwargs).save()` on the derived historical type — the snapshot
entity is staged (`histAdd` with the stamped `history_type`) and the
historical session commit runs; its `fill` succeeds by construction of the
derived type, which carries every live column plus the history columns. -/
def chr_tr (action : TypeHistorical) (hco : Option Nat) :
    List Ev × Except RecordError Unit :=
  (Ev.histAdd action :: commitEvs hco, commitRes hco)

/-- `FastAlchemyModel.create` (`models.py`) at the trace level: fill, live
`save` (commit outcome `lco`), and — only when the live save returned
normally and `__historical__` is truthy — one ADD snapshot write (commit
outcome `hco`), whose failure propagates. -/
def FM_create_tr (hist : Bool) (user : Option Int) (settable : List String)
    (kwargs : List (String × Value)) (lco hco : Option Nat) :
    List Ev × Except RecordError Unit :=
  match fill settable ⟨0, []⟩ (with_user user kwargs) with
  | (_, some name) => ([], .error (.unknownAttribute name))
  | (_, none) =>
      let (tr, r) := save_tr lco
      match r with
      | .error err => (tr, .error err)
      | .ok _ =>
          if hist then
            let (tr₂, r₂) := chr_tr .ADD hco
            (tr ++ tr₂, r₂)
          else (tr, .ok ())

/-- `FastAlchemyModel.update` (`models.py`) at the trace level: stamp
`updated_at` and the actor, fill + live save, then one UPDATE snapshot when
`__historical__` is truthy. -/
def FM_update_tr (hist : Bool) (user : Option Int) (settable : List String)
    (now : Nat) (self : Entity) (kwargs : List (String × Value))
    (lco hco : Option Nat) : List Ev × Except RecordError Unit :=
  let kwargs := dict_set kwargs "updated_at" (.vtime now)
  match fill settable self (with_user user kwargs) with
  | (_, some name) => ([], .error (.unknownAttribute name))
  | (_, none) =>
      let (tr, r) := save_tr lco
      match r with
      | .error err => (tr, .error err)
      | .ok _ =>
          if hist then
            let (tr₂, r₂) := chr_tr .UPDATE hco
            (tr ++ tr₂, r₂)
          else (tr, .ok ())

/-- `FastAlchemyModel.delete` (`models.py`) at the trace level: the
timestamp kwargs, actor stamp, base `update` (fill + live save), then one
DEL snapshot when `__historical__` is truthy. -/
def FM_delete_tr (hist : Bool) (user : Option Int) (settable : List String)
    (now : Nat) (self : Entity) (lco hco : Option Nat) :
    List Ev × Except RecordError Unit :=
  let kwargs := [("updated_at", Value.vtime now), ("deleted", Value.vtime now)]
  match fill settable self (with_user user kwargs) with
  | (_, some name) => ([], .error (.unknownAttribute name))
  | (_, none) =>
      let (tr, r) := save_tr lco
      match r with
      | .error err => (tr, .error err)
      | .ok _ =>
          if hist then
            let (tr₂, r₂) := chr_tr .DEL hco
            (tr ++ tr₂, r₂)
          else (tr, .ok ())

/-- Number of snapshot writes in a trace. -/
def histCount (tr : List Ev) : Nat :=
  tr.countP (fun e => match e with | .histAdd _ => true | _ => false)

/-- The in-memory effect of a successful `fill`: the kwargs assigned in
order. -/
def applyAttrs (e : Entity) (kwargs : List (String × Value)) : Entity :=
  kwargs.foldl (fun a p => eset a p.1 p.2) e

theorem lookup_dict_set_self (d : List (String × Value)) (k : String) (v : Value) :
    (dict_set d k v).lookup k = some v := by
  induction d with
  | nil => simp [dict_set, List.lookup]
  | cons p rest ih =>
      obtain ⟨k₁, v₁⟩ := p
      by_cases h : k₁ = k
      · simp [dict_set, h, List.lookup]
      · simp only [dict_set, if_neg h, List.lookup]
        have : (k == k₁) = false := by
          simp [beq_eq_false_iff_ne]
          exact fun hk => h hk.symm
        simp [this, ih]

theorem lookup_dict_set_ne (d : List (String × Value)) (k k' : String) (v : Value)
    (h : k' ≠ k) : (dict_set d k v).lookup k' = d.lookup k' := by
  have hb : (k' == k) = false := by simp [beq_eq_false_iff_ne, h]
  induction d with
  | nil => simp [dict_set, List.lookup, hb]
  | cons p rest ih =>
      obtain ⟨k₁, v₁⟩ := p
      by_cases h₁ : k₁ = k
      · subst h₁
        simp [dict_set, List.lookup, hb]
      · simp only [dict_set, if_neg h₁, List.lookup]
        by_cases h₂ : k' = k₁
        · simp [h₂]
        · have : (k' == k₁) = false := by simp [beq_eq_false_iff_ne, h₂]
          simp [this, ih]

theorem eget_eset_self (e : Entity) (k : String) (v : Value) :
    eget (eset e k v) k = v := by
  simp [eget, eset, dict_get, lookup_dict_set_self]

theorem eget_eset_ne (e : Entity) (k k' : String) (v : Value) (h : k' ≠ k) :
    eget (eset e k v) k' = eget e k' := by
  simp [eget, eset, dict_get, lookup_dict_set_ne _ _ _ _ h]

theorem iid_eset (e : Entity) (k : String) (v : Value) :
    (eset e k v).iid = e.iid := rfl

theorem iid_applyAttrs (kwargs : List (String × Value)) (e : Entity) :
    (applyAttrs e kwargs).iid = e.iid := by
  induction kwargs generalizing e with
  | nil => rfl
  | cons p rest ih => simp [applyAttrs, List.foldl] at ih ⊢; exact ih _

theorem fill_cons_mem (settable : List String) (e : Entity) (k : String)
    (v : Value) (rest : List (String × Value)) (h : k ∈ settable) :
    fill settable e ((k, v) :: rest) = fill settable (eset e k v) rest := by
  simp [fill, h]

theorem fill_cons_not_mem (settable : List String) (e : Entity) (k : String)
    (v : Value) (rest : List (String × Value)) (h : k ∉ settable) :
    fill settable e ((k, v) :: rest) = (e, some k) := by
  simp [fill, h]

theorem fill_all_settable (settable : List String) (kwargs : List (String × Value))
    (e : Entity) (h : ∀ p ∈ kwargs, p.1 ∈ settable) :
    fill settable e kwargs = (applyAttrs e kwargs, none) := by
  induction kwargs generalizing e with
  | nil => rfl
  | cons p rest ih =>
      obtain ⟨k, v⟩ := p
      have hk : k ∈ settable := h (k, v) (List.mem_cons_self _ _)
      rw [fill_cons_mem _ _ _ _ _ hk, ih _ (fun q hq => h q (List.mem_cons_of_mem _ hq))]
      simp [applyAttrs]

theorem fill_prefix_bad (settable : List String) (pre : List (String × Value))
    (e : Entity) (k : String) (v : Value) (rest : List (String × Value))
    (hpre : ∀ p ∈ pre, p.1 ∈ settable) (hk : k ∉ settable) :
    fill settable e (pre ++ (k, v) :: rest) = (applyAttrs e pre, some k) := by
  induction pre generalizing e with
  | nil => simpa [applyAttrs] using fill_cons_not_mem settable e k v rest hk
  | cons p pre' ih =>
      obtain ⟨k₁, v₁⟩ := p
      have hk₁ : k₁ ∈ settable := hpre (k₁, v₁) (List.mem_cons_self _ _)
      rw [List.cons_append, fill_cons_mem _ _ _ _ _ hk₁,
        ih _ (fun q hq => hpre q (List.mem_cons_of_mem _ hq))]
      simp [applyAttrs]

theorem eget_applyAttrs_not_mem (kwargs : List (String × Value)) (e : Entity)
    (k : String) (h : ∀ p ∈ kwargs, p.1 ≠ k) :
    eget (applyAttrs e kwargs) k = eget e k := by
  induction kwargs generalizing e with
  | nil => rfl
  | cons p rest ih =>
      obtain ⟨k₁, v₁⟩ := p
      have hne : k ≠ k₁ := fun hkk => h (k₁, v₁) (List.mem_cons_self _ _) (hkk ▸ rfl)
      simp only [applyAttrs, List.foldl] at ih ⊢
      rw [ih _ (fun q hq => h q (List.mem_cons_of_mem _ hq))]
      exact eget_eset_ne _ _ _ _ hne

theorem eget_applyAttrs_lookup (kwargs : List (String × Value)) (e : Entity)
    (k : String) (hnd : (kwargs.map Prod.fst).Nodup) :
    eget (applyAttrs e kwargs) k = (kwargs.lookup k).getD (eget e k) := by
  induction kwargs generalizing e with
  | nil => rfl
  | cons p rest ih =>
      obtain ⟨k₁, v₁⟩ := p
      simp only [List.map_cons, List.nodup_cons] at hnd
      by_cases hkk : k = k₁
      · subst hkk
        simp only [applyAttrs, List.foldl, List.lookup, beq_self_eq_true]
        have : ∀ p ∈ rest, p.1 ≠ k := by
          intro q hq hq1
          exact hnd.1 (hq1 ▸ List.mem_map_of_mem Prod.fst hq)
        rw [show rest.foldl (fun a p => eset a p.1 p.2) (eset e k v₁) =
              applyAttrs (eset e k v₁) rest from rfl,
          eget_applyAttrs_not_mem _ _ _ this, eget_eset_self]
        simp
      · have : (k == k₁) = false := by simp [beq_eq_false_iff_ne, hkk]
        simp only [applyAttrs, List.foldl, List.lookup, this]
        rw [show rest.foldl (fun a p => eset a p.1 p.2) (eset e k₁ v₁) =
              applyAttrs (eset e k₁ v₁) rest from rfl,
          ih _ hnd.2, eget_eset_ne _ _ _ _ hkk]

theorem mem_keys_dict_set (d : List (String × Value)) (k : String) (v : Value) :
    ∀ p ∈ dict_set d k v, p.1 = k ∨ p.1 ∈ d.map Prod.fst := by
  induction d with
  | nil => simp [dict_set]
  | cons q rest ih =>
      obtain ⟨k₁, v₁⟩ := q
      intro p hp
      by_cases h : k₁ = k
      · simp only [dict_set, if_pos h, List.mem_cons] at hp
        rcases hp with hp | hp
        · exact Or.inl (hp ▸ rfl)
        · exact Or.inr (List.mem_map_of_mem Prod.fst (List.mem_cons_of_mem _ hp))
      · simp only [dict_set, if_neg h, List.mem_cons] at hp
        rcases hp with hp | hp
        · subst hp; simp
        · rcases ih p hp with h₁ | h₁
          · exact Or.inl h₁
          · simp only [List.map_cons, List.mem_cons]
            exact Or.inr (Or.inr h₁)

theorem keys_with_user (user : Option Int) (kwargs : List (String × Value)) :
    ∀ p ∈ with_user user kwargs, p.1 = "updated_by_id" ∨ p.1 ∈ kwargs.map Prod.fst := by
  cases user with
  | none => intro p hp; exact Or.inr (List.mem_map_of_mem Prod.fst hp)
  | some u => exact mem_keys_dict_set kwargs "updated_by_id" (.vint u)

/-- C1 (counterexample): the claim says an entity type with zero primary-key
columns fails primary-key resolution with `InvalidSchema` (the explicitly
raised `InvalidRequestError`).  On the code, the `primary_keys is None` guard
never fires — the column collection of a table without a primary key is empty,
not `None` — so resolution falls through to `primary_keys[0].name` and fails
with `IndexError` instead. -/
theorem claim_C1_counterexample :
    resolve_primary_key [] = .error .indexOutOfRange ∧
    resolve_primary_key [] ≠ .error .invalidRequestNoPK ∧
    resolve_primary_key [] ≠ .error .invalidRequestComposite := by
  refine ⟨rfl, fun h => ?_, fun h => ?_⟩ <;>
    simp [resolve_primary_key, get_primary_key_name] at h

/-- C1 (amended): primary-key resolution returns the single column's name for
exactly one primary-key column and fails with `InvalidSchema`
(`InvalidRequestError`) for multiple ones; for zero primary-key columns it
fails, but with `IndexError` from `primary_keys[0]`, because the `None` guard
that would raise `InvalidRequestError` is dead code (the column collection is
never `None`). -/
theorem claim_C1 (pks : List ColumnM) :
    (pks = [] → resolve_primary_key pks = .error .indexOutOfRange) ∧
    (pks.length > 1 → resolve_primary_key pks = .error .invalidRequestComposite) ∧
    (∀ c, pks = [c] → resolve_primary_key pks = .ok c.name) ∧
    get_primary_key_name none = .error .invalidRequestNoPK := by
  refine ⟨?_, ?_, ?_, rfl⟩
  · rintro rfl; rfl
  · intro h
    cases pks with
    | nil => simp at h
    | cons c rest =>
        cases rest with
        | nil => simp at h
        | cons c₂ rest₂ =>
            simp [resolve_primary_key, get_primary_key_name]
  · rintro c rfl
    simp [resolve_primary_key, get_primary_key_name]

/-- C1 (witness): concrete single-column and two-column tables. -/
theorem claim_C1_witness :
    resolve_primary_key [⟨"id"⟩] = .ok "id" ∧
    resolve_primary_key [⟨"a"⟩, ⟨"b"⟩] = .error .invalidRequestComposite :=
  ⟨(claim_C1 [⟨"id"⟩]).2.2.1 ⟨"id"⟩ rfl, (claim_C1 [⟨"a"⟩, ⟨"b"⟩]).2.1 (by decide)⟩

/-- C6: `fill` assigns every supplied settable field in order and succeeds
when all supplied names are settable; when some supplied name is not
settable it fails with a `KeyError` naming an offending supplied
non-settable field; and a call supplying only one unknown field fails naming
it and leaves the entity unmodified. -/
theorem claim_C6 (settable : List String) (e : Entity)
    (kwargs : List (String × Value)) :
    ((∀ p ∈ kwargs, p.1 ∈ settable) →
      fill settable e kwargs = (applyAttrs e kwargs, none)) ∧
    ((∃ p ∈ kwargs, p.1 ∉ settable) →
      ∃ n, (fill settable e kwargs).2 = some n ∧ n ∉ settable ∧
        ∃ v, (n, v) ∈ kwargs) ∧
    (∀ k v, k ∉ settable → fill settable e [(k, v)] = (e, some k)) := by
  refine ⟨fill_all_settable settable kwargs e, ?_, ?_⟩
  · intro hex
    induction kwargs generalizing e with
    | nil => simp at hex
    | cons p rest ih =>
        obtain ⟨k, v⟩ := p
        by_cases hk : k ∈ settable
        · rw [fill_cons_mem _ _ _ _ _ hk]
          have hex' : ∃ q ∈ rest, q.1 ∉ settable := by
            rcases hex with ⟨q, hq, hq1⟩
            rcases List.mem_cons.mp hq with rfl | hq'
            · exact absurd hk hq1
            · exact ⟨q, hq', hq1⟩
          rcases ih (eset e k v) hex' with ⟨n, h₁, h₂, w, h₃⟩
          exact ⟨n, h₁, h₂, w, List.mem_cons_of_mem _ h₃⟩
        · rw [fill_cons_not_mem _ _ _ _ _ hk]
          exact ⟨k, rfl, hk, v, List.mem_cons_self _ _⟩
  · intro k v hk
    exact fill_cons_not_mem _ _ _ _ _ hk

/-- C6 (witness): concrete calls — an all-settable fill succeeds and assigns,
a fill given only the unknown name "x" fails naming "x" and leaves the
entity unchanged. -/
theorem claim_C6_witness :
    fill ["a", "b"] ⟨0, []⟩ [("a", .vint 1), ("b", .vint 2)] =
      (applyAttrs ⟨0, []⟩ [("a", .vint 1), ("b", .vint 2)], none) ∧
    fill ["a", "b"] ⟨0, [("a", .vint 9)]⟩ [("x", .vint 1)] =
      (⟨0, [("a", .vint 9)]⟩, some "x") := by
  refine ⟨(claim_C6 ["a", "b"] ⟨0, []⟩ [("a", .vint 1), ("b", .vint 2)]).1 ?_,
    (claim_C6 ["a", "b"] ⟨0, [("a", .vint 9)]⟩ []).2.2 "x" (.vint 1) ?_⟩
  · decide
  · decide

/-- C10: `fill` is not atomic on failure — for kwargs consisting of settable
entries followed by a non-settable name, the failing call has already
assigned every entry before the offending name, so the entity is left
partially modified. -/
theorem claim_C10 (settable : List String) (e : Entity)
    (pre : List (String × Value)) (k : String) (v : Value)
    (rest : List (String × Value)) (hpre : ∀ p ∈ pre, p.1 ∈ settable)
    (hk : k ∉ settable) :
    fill settable e (pre ++ (k, v) :: rest) = (applyAttrs e pre, some k) :=
  fill_prefix_bad settable pre e k v rest hpre hk

/-- C10 (witness): a concrete failing fill that has already assigned the
settable field "a" before failing on "x" — the returned entity carries the
partial assignment. -/
theorem claim_C10_witness :
    fill ["a"] ⟨0, []⟩ [("a", .vint 7), ("x", .vint 1)] =
      (⟨0, [("a", .vint 7)]⟩, some "x") := by
  have h := claim_C10 ["a"] ⟨0, []⟩ [("a", .vint 7)] "x" (.vint 1) []
    (by decide) (by decide)
  simpa [applyAttrs, eset, dict_set] using h

/-- C2 (counterexample): `bulk_create_async` with `batch_size = 2` over five
objects whose fourth is invalid commits only the first chunk (objects 1–2),
not the first two chunks as claimed: the `KeyError` is raised while building
the entities of the second chunk, before that chunk is staged or
committed. -/
theorem claim_C2_counterexample :
    (bulk_create_async ["a"]
      [[("a", .vint 1)], [("a", .vint 2)], [("a", .vint 3)],
       [("x", .vint 4)], [("a", .vint 5)]] 2).1.length = 1 ∧
    (bulk_create_async ["a"]
      [[("a", .vint 1)], [("a", .vint 2)], [("a", .vint 3)],
       [("x", .vint 4)], [("a", .vint 5)]] 2).2 =
      some (.unknownAttribute "x") ∧
    ¬ (bulk_create_async ["a"]
      [[("a", .vint 1)], [("a", .vint 2)], [("a", .vint 3)],
       [("x", .vint 4)], [("a", .vint 5)]] 2).1.length = 2 := by
  refine ⟨?_, ?_, ?_⟩ <;> decide

/-- C2 (amended): with `batch_size = 2` over five objects whose fourth is
invalid, the input is still partitioned `[2, 2, 1]`, but only the first
chunk (objects 1–2) is committed: the error surfaces while the second chunk's
entities are being built — before that chunk is committed — so objects 3–4
are not committed, object 5 is never attempted, and the error is raised to
the caller. -/
theorem claim_C2 (settable : List String)
    (o₁ o₂ o₃ o₄ o₅ : List (String × Value)) (e₁ e₂ e₃ x : Entity)
    (n : String)
    (h₁ : fill settable ⟨0, []⟩ o₁ = (e₁, none))
    (h₂ : fill settable ⟨0, []⟩ o₂ = (e₂, none))
    (h₃ : fill settable ⟨0, []⟩ o₃ = (e₃, none))
    (h₄ : fill settable ⟨0, []⟩ o₄ = (x, some n)) :
    bulk_create_async settable [o₁, o₂, o₃, o₄, o₅] 2 =
      ([[e₁, e₂]], some (.unknownAttribute n)) := by
  simp [bulk_create_async, bulk_go, fill_batch, h₁, h₂, h₃, h₄]

/-- C2 (witness): the concrete five-object scenario of the counterexample,
run through the amended theorem. -/
theorem claim_C2_witness :
    bulk_create_async ["a"]
      [[("a", .vint 1)], [("a", .vint 2)], [("a", .vint 3)],
       [("x", .vint 4)], [("a", .vint 5)]] 2 =
      ([[⟨0, [("a", .vint 1)]⟩, ⟨0, [("a", .vint 2)]⟩]],
        some (.unknownAttribute "x")) :=
  claim_C2 ["a"] [("a", .vint 1)] [("a", .vint 2)] [("a", .vint 3)]
    [("x", .vint 4)] [("a", .vint 5)] ⟨0, [("a", .vint 1)]⟩
    ⟨0, [("a", .vint 2)]⟩ ⟨0, [("a", .vint 3)]⟩ ⟨0, []⟩ "x"
    (by decide) (by decide) (by decide) (by decide)

/-- C7: every mutating record-engine operation — `save`, `create`, `update`,
`delete` and their async variants — rolls the transaction back and re-raises
the commit's original error unchanged when the commit fails, and issues
exactly one commit on success (the `create`/`update` hypotheses say their
`fill` step succeeded, so the call reaches the commit). -/
theorem claim_C7 (settable : List String) (self : Entity)
    (kwargs kwargs₂ : List (String × Value)) (c : Nat)
    (hc : (fill settable ⟨0, []⟩ kwargs).2 = none)
    (hu : (fill settable self kwargs₂).2 = none) :
    (save_tr (some c) = ([.add, .commitFail, .rollback], .error (.storage c)) ∧
      save_tr none = ([.add, .commitOk], .ok ()) ∧
      commitCount (save_tr none).1 = 1 ∧ commitCount (save_tr (some c)).1 = 1) ∧
    (save_async_tr (some c) = ([.add, .commitFail, .rollback], .error (.storage c)) ∧
      save_async_tr none = ([.add, .commitOk], .ok ()) ∧
      commitCount (save_async_tr none).1 = 1) ∧
    (create_tr settable kwargs (some c) =
        ([.add, .commitFail, .rollback], .error (.storage c)) ∧
      create_tr settable kwargs none = ([.add, .commitOk], .ok ()) ∧
      commitCount (create_tr settable kwargs none).1 = 1) ∧
    (create_async_tr settable kwargs (some c) =
        ([.add, .commitFail, .rollback], .error (.storage c)) ∧
      create_async_tr settable kwargs none = ([.add, .commitOk], .ok ()) ∧
      commitCount (create_async_tr settable kwargs none).1 = 1) ∧
    (update_tr settable self kwargs₂ (some c) =
        ([.add, .commitFail, .rollback], .error (.storage c)) ∧
      update_tr settable self kwargs₂ none = ([.add, .commitOk], .ok ()) ∧
      commitCount (update_tr settable self kwargs₂ none).1 = 1) ∧
    (update_async_tr settable self kwargs₂ (some c) =
        ([.add, .commitFail, .rollback], .error (.storage c)) ∧
      update_async_tr settable self kwargs₂ none = ([.add, .commitOk], .ok ()) ∧
      commitCount (update_async_tr settable self kwargs₂ none).1 = 1) ∧
    (delete_tr (some c) = ([.del, .commitFail, .rollback], .error (.storage c)) ∧
      delete_tr none = ([.del, .commitOk], .ok ()) ∧
      commitCount (delete_tr none).1 = 1) ∧
    (delete_async_tr (some c) =
        ([.del, .commitFail, .rollback, .flush], .error (.storage c)) ∧
      delete_async_tr none = ([.del, .commitOk, .flush], .ok ()) ∧
      commitCount (delete_async_tr none).1 = 1) := by
  rcases hfc : fill settable ⟨0, []⟩ kwargs with ⟨ec, oc⟩
  rcases hfu : fill settable self kwargs₂ with ⟨eu, ou⟩
  rw [hfc] at hc
  rw [hfu] at hu
  simp only at hc hu
  subst hc
  subst hu
  refine ⟨?_, ?_, ?_, ?_, ?_, ?_, ?_, ?_⟩ <;>
    simp [save_tr, save_async_tr, create_tr, create_async_tr, update_tr,
      update_async_tr, delete_tr, delete_async_tr, hfc, hfu, commitEvs,
      commitRes, commitCount]

/-- C7 (witness): the concrete calls at a settable singleton attribute set and
storage error code 3. -/
theorem claim_C7_witness :
    save_tr (some 3) = ([.add, .commitFail, .rollback], .error (.storage 3)) ∧
    create_tr ["a"] [("a", .vint 1)] none = ([.add, .commitOk], .ok ()) := by
  have h := claim_C7 ["a"] ⟨0, []⟩ [("a", .vint 1)] [("a", .vint 2)] 3
    (by decide) (by decide)
  exact ⟨h.1.1, h.2.2.1.2.1⟩

/-- C3: on a historicized entity (`__historical__` truthy), `create`,
`update` and `delete` each write exactly one historical snapshot with
`history_type` ADD, UPDATE, DEL respectively, staged only after the live
save's successful commit; when the live commit fails the error propagates
and no snapshot is staged; when the live commit succeeds and the snapshot
commit fails, that error propagates to the caller even though the live
mutation is already committed.  (The hypotheses say the live `fill` steps
succeed.) -/
theorem claim_C3 (user : Option Int) (settable : List String) (now : Nat)
    (self : Entity) (kwargs : List (String × Value)) (c : Nat)
    (hc : (fill settable ⟨0, []⟩ (with_user user kwargs)).2 = none)
    (hu : (fill settable self
      (with_user user (dict_set kwargs "updated_at" (.vtime now)))).2 = none)
    (hd : (fill settable self
      (with_user user [("updated_at", Value.vtime now),
        ("deleted", Value.vtime now)])).2 = none) :
    (FM_create_tr true user settable kwargs none none =
        ([.add, .commitOk, .histAdd .ADD, .commitOk], .ok ()) ∧
      FM_create_tr true user settable kwargs (some c) none =
        ([.add, .commitFail, .rollback], .error (.storage c)) ∧
      FM_create_tr true user settable kwargs none (some c) =
        ([.add, .commitOk, .histAdd .ADD, .commitFail, .rollback],
          .error (.storage c))) ∧
    (FM_update_tr true user settable now self kwargs none none =
        ([.add, .commitOk, .histAdd .UPDATE, .commitOk], .ok ()) ∧
      FM_update_tr true user settable now self kwargs (some c) none =
        ([.add, .commitFail, .rollback], .error (.storage c)) ∧
      FM_update_tr true user settable now self kwargs none (some c) =
        ([.add, .commitOk, .histAdd .UPDATE, .commitFail, .rollback],
          .error (.storage c))) ∧
    (FM_delete_tr true user settable now self none none =
        ([.add, .commitOk, .histAdd .DEL, .commitOk], .ok ()) ∧
      FM_delete_tr true user settable now self (some c) none =
        ([.add, .commitFail, .rollback], .error (.storage c)) ∧
      FM_delete_tr true user settable now self none (some c) =
        ([.add, .commitOk, .histAdd .DEL, .commitFail, .rollback],
          .error (.storage c))) ∧
    histCount [Ev.add, .commitOk, .histAdd .ADD, .commitOk] = 1 ∧
    histCount [Ev.add, .commitOk, .histAdd .UPDATE, .commitOk] = 1 ∧
    histCount [Ev.add, .commitOk, .histAdd .DEL, .commitOk] = 1 ∧
    histCount [Ev.add, .commitFail, .rollback] = 0 := by
  rcases hfc : fill settable ⟨0, []⟩ (with_user user kwargs) with ⟨ec, oc⟩
  rcases hfu : fill settable self
    (with_user user (dict_set kwargs "updated_at" (.vtime now))) with ⟨eu, ou⟩
  rcases hfd : fill settable self
    (with_user user [("updated_at", Value.vtime now),
      ("deleted", Value.vtime now)]) with ⟨ed, od⟩
  rw [hfc] at hc
  rw [hfu] at hu
  rw [hfd] at hd
  simp only at hc hu hd
  subst hc; subst hu; subst hd
  refine ⟨⟨?_, ?_, ?_⟩, ⟨?_, ?_, ?_⟩, ⟨?_, ?_, ?_⟩, ?_, ?_, ?_, ?_⟩ <;>
    simp [FM_create_tr, FM_update_tr, FM_delete_tr, hfc, hfu, hfd, save_tr,
      chr_tr, commitEvs, commitRes, histCount]

/-- C3 (witness): the concrete historicized scenario with every lifecycle
column settable, no actor, and snapshot-commit error code 7. -/
theorem claim_C3_witness :
    FM_create_tr true none ["a", "updated_at", "deleted"] [("a", .vint 1)]
        none none =
      ([.add, .commitOk, .histAdd .ADD, .commitOk], .ok ()) ∧
    FM_delete_tr true none ["a", "updated_at", "deleted"] 5 ⟨0, []⟩ none
        (some 7) =
      ([.add, .commitOk, .histAdd .DEL, .commitFail, .rollback],
        .error (.storage 7)) := by
  have h := claim_C3 none ["a", "updated_at", "deleted"] 5 ⟨0, []⟩
    [("a", .vint 1)] 7 (by decide) (by decide) (by decide)
  exact ⟨h.1.1, h.2.2.1.2.2⟩

theorem rows_histAppend (ctx : Ctx) (a : TypeHistorical)
    (attrs : List (String × Value)) (s : Store) :
    (histAppend ctx a attrs s).rows = s.rows := by
  unfold histAppend
  split <;> rfl

theorem saveRow_insert (s : Store) (e : Entity)
    (h : ∀ r ∈ s.rows, r.iid ≠ e.iid) :
    saveRow s e =
      if eget e "id" = .vnull then
        ({ s with
            rows := s.rows ++ [eset e "id" (.vint s.nextPk)]
            nextPk := s.nextPk + 1 }, eset e "id" (.vint s.nextPk))
      else
        ({ s with
            rows := s.rows ++ [e]
            nextPk := s.nextPk + 1 }, e) := by
  have hany : s.rows.any (fun r => r.iid = e.iid) = false := by
    rw [Bool.eq_false_iff]
    intro hcon
    rw [List.any_eq_true] at hcon
    rcases hcon with ⟨r, hr, hp⟩
    rw [decide_eq_true_eq] at hp
    exact h r hr hp
  unfold saveRow
  by_cases hid : eget e "id" = .vnull <;> simp [hany, hid]

theorem saveRow_update (s : Store) (e : Entity) (old : Entity)
    (hold : old ∈ s.rows) (hiid : old.iid = e.iid) :
    saveRow s e =
      ({ s with rows := s.rows.map (fun r => if r.iid = e.iid then e else r) }, e) := by
  have hany : s.rows.any (fun r => r.iid = e.iid) = true :=
    List.any_eq_true.mpr ⟨old, hold, by simp [hiid]⟩
  unfold saveRow
  simp [hany]

theorem lookup_live_none (s : Store) (idv : Value)
    (h : ∀ r ∈ s.rows, eget r "id" = idv → eget r "deleted" ≠ .vnull) :
    lookup_live s idv = none := by
  unfold lookup_live
  have hfil : s.rows.filter
      (fun r => eget r "id" == idv && eget r "deleted" == Value.vnull) = [] := by
    rw [List.filter_eq_nil_iff]
    intro r hr hcon
    rw [Bool.and_eq_true, beq_iff_eq, beq_iff_eq] at hcon
    exact h r hr hcon.1 hcon.2
  rw [hfil]
  rfl

theorem CAR_find_none (s : Store) (idv : Value)
    (h : ∀ r ∈ s.rows, eget r "id" ≠ idv) : CAR_find s idv = none := by
  unfold CAR_find
  rw [List.find?_eq_none]
  intro r hr
  simp only [beq_iff_eq]
  exact h r hr

theorem find_append_none {α : Type} (p : α → Bool) (l₁ l₂ : List α)
    (h : l₁.find? p = none) : (l₁ ++ l₂).find? p = l₂.find? p := by
  induction l₁ with
  | nil => rfl
  | cons a l ih =>
      simp only [List.find?] at h
      simp only [List.cons_append, List.find?]
      cases hp : p a with
      | true => rw [hp] at h; simp at h
      | false =>
          rw [hp] at h
          simp only at h
          exact ih h

theorem FM_create_append (ctx : Ctx) (s : Store) (kwargs : List (String × Value))
    (hinv : StoreInv s) (hkeys : ∀ p ∈ kwargs, p.1 ∈ ctx.settable)
    (hub : "updated_by_id" ∈ ctx.settable) :
    ∃ e, e.iid = s.nextIid ∧ eget e "id" ≠ .vnull ∧
      FM_create ctx s kwargs =
        (histAppend ctx .ADD e.attrs
          ⟨s.rows ++ [e], s.hist, s.nextIid + 1, s.nextPk + 1⟩, .ok e) := by
  have hk' : ∀ p ∈ with_user ctx.user kwargs, p.1 ∈ ctx.settable := by
    intro p hp
    rcases keys_with_user ctx.user kwargs p hp with h | h
    · exact h ▸ hub
    · rcases List.mem_map.mp h with ⟨q, hq, hq1⟩
      exact hq1 ▸ hkeys q hq
  have hfill : fill ctx.settable ⟨s.nextIid, []⟩ (with_user ctx.user kwargs) =
      (applyAttrs ⟨s.nextIid, []⟩ (with_user ctx.user kwargs), none) :=
    fill_all_settable _ _ _ hk'
  have hfresh : ∀ r ∈ s.rows,
      r.iid ≠ (applyAttrs ⟨s.nextIid, []⟩ (with_user ctx.user kwargs)).iid := by
    intro r hr
    rw [iid_applyAttrs]
    exact Nat.ne_of_lt (hinv r hr).1
  have hsave := saveRow_insert ⟨s.rows, s.hist, s.nextIid + 1, s.nextPk⟩
    (applyAttrs ⟨s.nextIid, []⟩ (with_user ctx.user kwargs)) hfresh
  by_cases hid :
      eget (applyAttrs ⟨s.nextIid, []⟩ (with_user ctx.user kwargs)) "id" = .vnull
  · refine ⟨eset (applyAttrs ⟨s.nextIid, []⟩ (with_user ctx.user kwargs)) "id"
      (.vint s.nextPk), ?_, ?_, ?_⟩
    · rw [iid_eset, iid_applyAttrs]
    · rw [eget_eset_self]; intro hcon; cases hcon
    · rw [if_pos hid] at hsave
      simp only [FM_create, newEntity, hfill, hsave]
  · refine ⟨applyAttrs ⟨s.nextIid, []⟩ (with_user ctx.user kwargs),
      iid_applyAttrs _ _, hid, ?_⟩
    rw [if_neg hid] at hsave
    simp only [FM_create, newEntity, hfill, hsave]

theorem CAR_create_append_id (settable : List String) (s : Store)
    (kwargs : List (String × Value)) (hinv : StoreInv s)
    (hkeys : ∀ p ∈ kwargs, p.1 ∈ settable)
    (hidnn : eget (applyAttrs ⟨s.nextIid, []⟩ kwargs) "id" ≠ .vnull) :
    CAR_create settable s kwargs =
      (⟨s.rows ++ [applyAttrs ⟨s.nextIid, []⟩ kwargs], s.hist,
        s.nextIid + 1, s.nextPk + 1⟩, .ok (applyAttrs ⟨s.nextIid, []⟩ kwargs)) := by
  have hfill : fill settable ⟨s.nextIid, []⟩ kwargs =
      (applyAttrs ⟨s.nextIid, []⟩ kwargs, none) :=
    fill_all_settable _ _ _ hkeys
  have hfresh : ∀ r ∈ s.rows, r.iid ≠ (applyAttrs ⟨s.nextIid, []⟩ kwargs).iid := by
    intro r hr
    rw [iid_applyAttrs]
    exact Nat.ne_of_lt (hinv r hr).1
  have hsave := saveRow_insert ⟨s.rows, s.hist, s.nextIid + 1, s.nextPk⟩
    (applyAttrs ⟨s.nextIid, []⟩ kwargs) hfresh
  rw [if_neg hidnn] at hsave
  simp only [CAR_create, newEntity, hfill, hsave]

theorem FM_delete_update (ctx : Ctx) (now : Nat) (s : Store) (self : Entity)
    (hself : self ∈ s.rows) (hua : "updated_at" ∈ ctx.settable)
    (hdel : "deleted" ∈ ctx.settable) (hub : "updated_by_id" ∈ ctx.settable) :
    ∃ e', FM_delete ctx now s self =
        (histAppend ctx .DEL e'.attrs
          ⟨s.rows.map (fun r => if r.iid = e'.iid then e' else r), s.hist,
            s.nextIid, s.nextPk⟩, .ok e') ∧
      e'.iid = self.iid ∧
      eget e' "deleted" = .vtime now ∧ eget e' "updated_at" = .vtime now ∧
      (∀ u, ctx.user = some u → eget e' "updated_by_id" = .vint u) ∧
      (∀ k, k ≠ "updated_at" → k ≠ "deleted" → k ≠ "updated_by_id" →
        eget e' k = eget self k) := by
  rcases ctx with ⟨settable, user, historical⟩
  simp only at hua hdel hub
  cases user with
  | none =>
      have hfill : fill settable self
          [("updated_at", Value.vtime now), ("deleted", Value.vtime now)] =
          (eset (eset self "updated_at" (.vtime now)) "deleted" (.vtime now),
            none) := by
        rw [fill_cons_mem _ _ _ _ _ hua, fill_cons_mem _ _ _ _ _ hdel]
        rfl
      have hsave := saveRow_update s
        (eset (eset self "updated_at" (.vtime now)) "deleted" (.vtime now))
        self hself rfl
      refine ⟨eset (eset self "updated_at" (.vtime now)) "deleted" (.vtime now),
        ?_, rfl, ?_, ?_, ?_, ?_⟩
      · simp only [FM_delete, with_user, hfill, hsave]
      · rw [eget_eset_self]
      · rw [eget_eset_ne _ _ _ _ (by decide), eget_eset_self]
      · intro u hu; cases hu
      · intro k h₁ h₂ _
        rw [eget_eset_ne _ _ _ _ h₂, eget_eset_ne _ _ _ _ h₁]
  | some u =>
      have hfill : fill settable (self)
          (with_user (some u)
            [("updated_at", Value.vtime now), ("deleted", Value.vtime now)]) =
          (eset (eset (eset self "updated_at" (.vtime now)) "deleted"
            (.vtime now)) "updated_by_id" (.vint u), none) := by
        show fill settable self
          [("updated_at", Value.vtime now), ("deleted", Value.vtime now),
            ("updated_by_id", Value.vint u)] = _
        rw [fill_cons_mem _ _ _ _ _ hua, fill_cons_mem _ _ _ _ _ hdel,
          fill_cons_mem _ _ _ _ _ hub]
        rfl
      have hsave := saveRow_update s
        (eset (eset (eset self "updated_at" (.vtime now)) "deleted"
          (.vtime now)) "updated_by_id" (.vint u)) self hself rfl
      refine ⟨eset (eset (eset self "updated_at" (.vtime now)) "deleted"
        (.vtime now)) "updated_by_id" (.vint u), ?_, rfl, ?_, ?_, ?_, ?_⟩
      · simp only [FM_delete, hfill, hsave]
      · rw [eget_eset_ne _ _ _ _ (by decide), eget_eset_self]
      · rw [eget_eset_ne _ _ _ _ (by decide), eget_eset_ne _ _ _ _ (by decide),
          eget_eset_self]
      · intro u' hu'
        cases hu'
        rw [eget_eset_self]
      · intro k h₁ h₂ h₃
        rw [eget_eset_ne _ _ _ _ h₃, eget_eset_ne _ _ _ _ h₂,
          eget_eset_ne _ _ _ _ h₁]

/-- C4: `get_or_create` and `upsert` on the soft-delete base look up with the
predicate `(id = given id) AND (deleted = NULL)`; when every row carrying the
given id is soft-deleted, the lookup finds nothing, both operations take the
create branch, a new row is appended, and the old soft-deleted row — still in
the store — keeps its `deleted` timestamp untouched. -/
theorem claim_C4 (ctx : Ctx) (now : Nat) (s : Store)
    (kwargs : List (String × Value)) (old : Entity) (told : Nat)
    (hinv : StoreInv s) (hold : old ∈ s.rows)
    (_holdid : eget old "id" = dict_get kwargs "id")
    (holddel : eget old "deleted" = .vtime told)
    (hnolive : ∀ r ∈ s.rows, eget r "id" = dict_get kwargs "id" →
      eget r "deleted" ≠ .vnull)
    (hkeys : ∀ p ∈ kwargs, p.1 ∈ ctx.settable)
    (hub : "updated_by_id" ∈ ctx.settable) :
    lookup_live s (dict_get kwargs "id") = none ∧
    FM_upsert ctx now s kwargs = FM_create ctx s kwargs ∧
    FM_get_or_create ctx s kwargs = FM_create ctx s kwargs ∧
    ∃ e, (FM_upsert ctx now s kwargs).2 = .ok e ∧
      (FM_upsert ctx now s kwargs).1.rows = s.rows ++ [e] ∧
      old ∈ (FM_upsert ctx now s kwargs).1.rows ∧
      eget old "deleted" = .vtime told := by
  have hlook : lookup_live s (dict_get kwargs "id") = none :=
    lookup_live_none s _ hnolive
  have hup : FM_upsert ctx now s kwargs = FM_create ctx s kwargs := by
    unfold FM_upsert
    rw [hlook]
  have hgoc : FM_get_or_create ctx s kwargs = FM_create ctx s kwargs := by
    unfold FM_get_or_create
    rw [hlook]
  rcases FM_create_append ctx s kwargs hinv hkeys hub with ⟨e, hiid, hid, hcr⟩
  refine ⟨hlook, hup, hgoc, e, ?_, ?_, ?_, holddel⟩
  · rw [hup, hcr]
  · rw [hup, hcr]
    show (histAppend ctx .ADD e.attrs _).rows = _
    rw [rows_histAppend]
  · rw [hup, hcr]
    show old ∈ (histAppend ctx .ADD e.attrs _).rows
    rw [rows_histAppend]
    exact List.mem_append_left _ hold

/-- C4 (witness): a store holding one soft-deleted row with id 5; upsert with
id 5 appends a fresh row and keeps the old one. -/
theorem claim_C4_witness :
    lookup_live ⟨[⟨0, [("id", .vint 5), ("deleted", .vtime 3)]⟩], [], 1, 10⟩
      (.vint 5) = none ∧
    ∃ e, (FM_upsert ⟨["id", "a", "updated_by_id", "updated_at", "deleted"],
        none, false⟩ 4 ⟨[⟨0, [("id", .vint 5), ("deleted", .vtime 3)]⟩], [], 1, 10⟩
        [("id", .vint 5), ("a", .vint 1)]).1.rows =
      [⟨0, [("id", .vint 5), ("deleted", .vtime 3)]⟩] ++ [e] := by
  have h := claim_C4 ⟨["id", "a", "updated_by_id", "updated_at", "deleted"],
      none, false⟩ 4 ⟨[⟨0, [("id", .vint 5), ("deleted", .vtime 3)]⟩], [], 1, 10⟩
    [("id", .vint 5), ("a", .vint 1)] ⟨0, [("id", .vint 5), ("deleted", .vtime 3)]⟩
    3 (by decide) (by decide) (by decide) (by decide) (by decide) (by decide)
    (by decide)
  rcases h with ⟨h1, -, -, e, -, hrows, -, -⟩
  exact ⟨h1, e, hrows⟩

/-- C5: the soft-delete round trip — `create` then `delete` keeps the row in
storage (same row count, returned by the unfiltered row set) with `deleted`
and `updated_at` stamped to the deletion time and `updated_by_id` stamped
from the actor when one is set; the deleted row is absent from `all()`; and a
second `delete` succeeds, re-stamping the timestamps. -/
theorem claim_C5 (ctx : Ctx) (s : Store) (kwargs : List (String × Value))
    (now₁ now₂ : Nat) (hinv : StoreInv s)
    (hkeys : ∀ p ∈ kwargs, p.1 ∈ ctx.settable)
    (hub : "updated_by_id" ∈ ctx.settable)
    (hua : "updated_at" ∈ ctx.settable)
    (hdel : "deleted" ∈ ctx.settable) :
    ∃ s₁ e, FM_create ctx s kwargs = (s₁, .ok e) ∧
      ∃ s₂ e', FM_delete ctx now₁ s₁ e = (s₂, .ok e') ∧
        e' ∈ s₂.rows ∧
        eget e' "deleted" = .vtime now₁ ∧
        eget e' "updated_at" = .vtime now₁ ∧
        (∀ u, ctx.user = some u → eget e' "updated_by_id" = .vint u) ∧
        s₂.rows.length = s₁.rows.length ∧
        e' ∉ FM_all s₂ ∧
        ∃ s₃ e'', FM_delete ctx now₂ s₂ e' = (s₃, .ok e'') ∧
          eget e'' "deleted" = .vtime now₂ ∧
          eget e'' "updated_at" = .vtime now₂ ∧
          e'' ∈ s₃.rows ∧ s₃.rows.length = s₂.rows.length := by
  rcases FM_create_append ctx s kwargs hinv hkeys hub with ⟨e, hiid, hid, hcr⟩
  refine ⟨_, e, hcr, ?_⟩
  have he_mem : e ∈ (histAppend ctx .ADD e.attrs
      ⟨s.rows ++ [e], s.hist, s.nextIid + 1, s.nextPk + 1⟩).rows := by
    rw [rows_histAppend]
    exact List.mem_append_right _ (by simp)
  rcases FM_delete_update ctx now₁ _ e he_mem hua hdel hub with
    ⟨e', hdel1, hiid', hd1, hu1, hub1, hother1⟩
  have he'_mem : e' ∈ (histAppend ctx .DEL e'.attrs
      ⟨(histAppend ctx .ADD e.attrs
          ⟨s.rows ++ [e], s.hist, s.nextIid + 1, s.nextPk + 1⟩).rows.map
            (fun r => if r.iid = e'.iid then e' else r),
        (histAppend ctx .ADD e.attrs
          ⟨s.rows ++ [e], s.hist, s.nextIid + 1, s.nextPk + 1⟩).hist,
        (histAppend ctx .ADD e.attrs
          ⟨s.rows ++ [e], s.hist, s.nextIid + 1, s.nextPk + 1⟩).nextIid,
        (histAppend ctx .ADD e.attrs
          ⟨s.rows ++ [e], s.hist, s.nextIid + 1, s.nextPk + 1⟩).nextPk⟩).rows := by
    rw [rows_histAppend]
    have := List.mem_map_of_mem (fun r => if r.iid = e'.iid then e' else r) he_mem
    simpa [hiid'] using this
  refine ⟨_, e', hdel1, he'_mem, hd1, hu1, hub1, ?_, ?_, ?_⟩
  · rw [rows_histAppend]
    exact List.length_map _ _
  · intro hmem
    simp only [FM_all, List.mem_filter] at hmem
    rw [hd1] at hmem
    simp at hmem
  · rcases FM_delete_update ctx now₂ _ e' he'_mem hua hdel hub with
      ⟨e'', hdel2, hiid'', hd2, hu2, hub2, hother2⟩
    refine ⟨_, e'', hdel2, hd2, hu2, ?_, ?_⟩
    · rw [rows_histAppend]
      have := List.mem_map_of_mem (fun r => if r.iid = e''.iid then e'' else r)
        he'_mem
      simpa [hiid''] using this
    · rw [rows_histAppend]
      exact List.length_map _ _

/-- C5 (witness): the round trip on a concrete empty store with an actor set
(actor id 9), create fields `a = 1`, deletion times 5 and 6. -/
theorem claim_C5_witness :
    ∃ s₁ e, FM_create ⟨["a", "id", "updated_at", "deleted", "updated_by_id"],
        some 9, false⟩ ⟨[], [], 0, 100⟩ [("a", .vint 1)] = (s₁, .ok e) ∧
      ∃ s₂ e', FM_delete ⟨["a", "id", "updated_at", "deleted", "updated_by_id"],
          some 9, false⟩ 5 s₁ e = (s₂, .ok e') ∧
        e' ∈ s₂.rows ∧
        eget e' "deleted" = .vtime 5 ∧
        eget e' "updated_at" = .vtime 5 ∧
        (∀ u, (some 9 : Option Int) = some u →
          eget e' "updated_by_id" = .vint u) ∧
        s₂.rows.length = s₁.rows.length ∧
        e' ∉ FM_all s₂ ∧
        ∃ s₃ e'', FM_delete ⟨["a", "id", "updated_at", "deleted",
            "updated_by_id"], some 9, false⟩ 6 s₂ e' = (s₃, .ok e'') ∧
          eget e'' "deleted" = .vtime 6 ∧
          eget e'' "updated_at" = .vtime 6 ∧
          e'' ∈ s₃.rows ∧ s₃.rows.length = s₂.rows.length :=
  claim_C5 ⟨["a", "id", "updated_at", "deleted", "updated_by_id"], some 9,
      false⟩ ⟨[], [], 0, 100⟩ [("a", .vint 1)] 5 6 (by decide) (by decide)
    (by decide) (by decide) (by decide)

/-- C8: `get_or_create` returns an existing primary-key match exactly as-is,
applying none of the other supplied fields (the lookup short-circuits), and
creates only on a miss: two calls with the same id and different non-id
fields return the same entity, the second call changing nothing. -/
theorem claim_C8 (settable : List String) (s : Store)
    (kwargs₁ kwargs₂ : List (String × Value)) (idv : Value)
    (hinv : StoreInv s) (hmiss : CAR_find s idv = none)
    (hid1 : dict_get kwargs₁ "id" = idv) (hid2 : dict_get kwargs₂ "id" = idv)
    (hnn : idv ≠ .vnull) (hnd : (kwargs₁.map Prod.fst).Nodup)
    (hkeys : ∀ p ∈ kwargs₁, p.1 ∈ settable) :
    (∀ (kw : List (String × Value)) (inst : Entity),
        CAR_find s (dict_get kw "id") = some inst →
        CAR_get_or_create settable s kw = (s, .ok inst)) ∧
    ∃ s₁ e, CAR_get_or_create settable s kwargs₁ = (s₁, .ok e) ∧
      s₁.rows = s.rows ++ [e] ∧
      CAR_get_or_create settable s₁ kwargs₂ = (s₁, .ok e) := by
  constructor
  · intro kw inst hfind
    unfold CAR_get_or_create
    rw [hfind]
  · have hlk : kwargs₁.lookup "id" = some idv := by
      rcases hl : kwargs₁.lookup "id" with _ | v
      · rw [dict_get, hl] at hid1
        simp at hid1
        exact absurd hid1.symm hnn
      · rw [dict_get, hl] at hid1
        simp at hid1
        rw [hid1]
    have hegetid : eget (applyAttrs ⟨s.nextIid, []⟩ kwargs₁) "id" = idv := by
      rw [eget_applyAttrs_lookup _ _ _ hnd, hlk]
      rfl
    have hcr := CAR_create_append_id settable s kwargs₁ hinv hkeys
      (by rw [hegetid]; exact hnn)
    refine ⟨⟨s.rows ++ [applyAttrs ⟨s.nextIid, []⟩ kwargs₁], s.hist,
      s.nextIid + 1, s.nextPk + 1⟩, applyAttrs ⟨s.nextIid, []⟩ kwargs₁,
      ?_, rfl, ?_⟩
    · unfold CAR_get_or_create
      rw [hid1, hmiss]
      exact hcr
    · unfold CAR_get_or_create
      rw [hid2]
      have hfind2 : CAR_find
          (⟨s.rows ++ [applyAttrs ⟨s.nextIid, []⟩ kwargs₁], s.hist,
            s.nextIid + 1, s.nextPk + 1⟩ : Store) idv =
          some (applyAttrs ⟨s.nextIid, []⟩ kwargs₁) := by
        unfold CAR_find at hmiss ⊢
        show ((s.rows ++ [applyAttrs ⟨s.nextIid, []⟩ kwargs₁]).find? _) = _
        rw [find_append_none _ _ _ hmiss]
        simp [List.find?, hegetid]
      rw [hfind2]

/-- C8 (witness): the double call with id 5 — first call `name = "a"`,
second call `name = "b"` — returns the entity created by the first call both
times, with the second call's field not applied. -/
theorem claim_C8_witness :
    ∃ s₁ e, CAR_get_or_create ["id", "name"] ⟨[], [], 0, 10⟩
        [("id", .vint 5), ("name", .vstr "a")] = (s₁, .ok e) ∧
      s₁.rows = [] ++ [e] ∧
      CAR_get_or_create ["id", "name"] s₁
        [("id", .vint 5), ("name", .vstr "b")] = (s₁, .ok e) :=
  (claim_C8 ["id", "name"] ⟨[], [], 0, 10⟩
    [("id", .vint 5), ("name", .vstr "a")]
    [("id", .vint 5), ("name", .vstr "b")] (.vint 5) (by decide) (by decide)
    (by decide) (by decide) (by decide) (by decide) (by decide)).2

/-- C9: `get_or_create` and `upsert` (both the base and the soft-delete
versions) resolve the lookup key by reading the literal `"id"` key of the
supplied fields; with no `"id"` key supplied, `kwargs.get("id")` is `None`,
the lookup finds nothing — every persisted row has a non-null primary key —
and a new record is unconditionally created from the supplied fields. -/
theorem claim_C9 (ctx : Ctx) (now : Nat) (settable : List String) (s : Store)
    (kwargs : List (String × Value)) (hinv : StoreInv s)
    (hnoid : kwargs.lookup "id" = none)
    (hkeys : ∀ p ∈ kwargs, p.1 ∈ ctx.settable)
    (hub : "updated_by_id" ∈ ctx.settable) :
    dict_get kwargs "id" = .vnull ∧
    lookup_live s (dict_get kwargs "id") = none ∧
    CAR_find s (dict_get kwargs "id") = none ∧
    FM_get_or_create ctx s kwargs = FM_create ctx s kwargs ∧
    FM_upsert ctx now s kwargs = FM_create ctx s kwargs ∧
    CAR_get_or_create settable s kwargs = CAR_create settable s kwargs ∧
    CAR_upsert settable s kwargs = CAR_create settable s kwargs ∧
    ∃ e, (FM_create ctx s kwargs).2 = .ok e ∧
      (FM_create ctx s kwargs).1.rows = s.rows ++ [e] := by
  have hdg : dict_get kwargs "id" = .vnull := by
    rw [dict_get, hnoid]
    rfl
  have hlook : lookup_live s (dict_get kwargs "id") = none := by
    rw [hdg]
    exact lookup_live_none s _ (fun r hr hid => absurd hid (hinv r hr).2)
  have hfind : CAR_find s (dict_get kwargs "id") = none := by
    rw [hdg]
    exact CAR_find_none s _ (fun r hr => (hinv r hr).2)
  refine ⟨hdg, hlook, hfind, ?_, ?_, ?_, ?_, ?_⟩
  · unfold FM_get_or_create
    rw [hlook]
  · unfold FM_upsert
    rw [hlook]
  · unfold CAR_get_or_create
    rw [hfind]
  · unfold CAR_upsert
    rw [hfind]
  · rcases FM_create_append ctx s kwargs hinv hkeys hub with ⟨e, -, -, hcr⟩
    refine ⟨e, by rw [hcr], ?_⟩
    rw [hcr]
    show (histAppend ctx .ADD e.attrs _).rows = _
    rw [rows_histAppend]

/-- C9 (witness): a store with one row of id 1; a call supplying only
`a = 2` (no id key) takes the create branch and appends a new row. -/
theorem claim_C9_witness :
    FM_upsert ⟨["a", "updated_by_id"], none, false⟩ 0
        ⟨[⟨0, [("id", .vint 1)]⟩], [], 1, 7⟩ [("a", .vint 2)] =
      FM_create ⟨["a", "updated_by_id"], none, false⟩
        ⟨[⟨0, [("id", .vint 1)]⟩], [], 1, 7⟩ [("a", .vint 2)] ∧
    ∃ e, (FM_create ⟨["a", "updated_by_id"], none, false⟩
        ⟨[⟨0, [("id", .vint 1)]⟩], [], 1, 7⟩ [("a", .vint 2)]).1.rows =
      [⟨0, [("id", .vint 1)]⟩] ++ [e] := by
  have h := claim_C9 ⟨["a", "updated_by_id"], none, false⟩ 0 ["a"]
    ⟨[⟨0, [("id", .vint 1)]⟩], [], 1, 7⟩ [("a", .vint 2)] (by decide)
    (by decide) (by decide) (by decide)
  rcases h with ⟨-, -, -, -, hup, -, -, e, -, hrows⟩
  exact ⟨hup, e, hrows⟩

end FastAlchemy
